import Mathlib

/-!
Shallow embedding of `src/include/srf/experimental/modules/segment_modules.hpp`
(the `srf::modules::SegmentModule` module/port registry and naming system).

The header declares:
  * per-direction registries: `std::vector<std::string>` id lists
    (`m_input_port_ids`, `m_output_port_ids`), `std::map<std::string, const
    std::type_info*>` type maps (`m_input_port_type_indices`,
    `m_output_port_type_indices`) and `std::map<std::string,
    std::shared_ptr<ObjectProperties>>` port maps (`m_input_ports`,
    `m_output_ports`);
  * a naming subsystem: `m_module_name`, `m_component_prefix`,
    `component_prefix()`, `get_module_component_name(component_name)`;
  * an immutable configuration document `const nlohmann::json m_config`;
  * `operator()(Builder&)`, defined inline, forwarding to the virtual
    `initialize(Builder&)`.

`std::map<std::string, V>` iterates its entries in strictly increasing key
order under `std::string`'s lexicographic `operator<`; it is embedded here as
a strictly key-sorted association list (`mapInsert` / `mapLookup`).
`std::shared_ptr<ObjectProperties>` handles and `const std::type_info*`
tokens are opaque comparable identities; both are embedded as `Nat`.

Only the declarations (and the inline `operator()`) of `SegmentModule` live
in the repository fragment; the member-function bodies do not.  The bodies
are therefore modelled from the specification, each such definition carrying
a doc comment starting `Modelled from the spec:`.
-/

/-- nlohmann::json document: an opaque structured key-value/array/scalar
document.  Default construction of `nlohmann::json` yields the null
document. -/
inductive Json where
  | null : Json
  | bool : Bool → Json
  | num : Int → Json
  | str : String → Json
  | arr : List Json → Json
  | obj : List (String × Json) → Json

/-- The error taxonomy of the spec (§7): `InvalidName`, `DuplicatePort`,
`UnknownPort`, `AlreadyInitialized`. -/
inductive ModuleError where
  | InvalidName : ModuleError
  | DuplicatePort : ModuleError
  | UnknownPort : ModuleError
  | AlreadyInitialized : ModuleError
deriving DecidableEq, Repr

/-- Lexicographic comparison of character sequences: the order used by
`std::string`'s `operator<` (compare position by position, a strict proper
initial segment is smaller). -/
def charListLt : List Char → List Char → Bool
  | _, [] => false
  | [], _ :: _ => true
  | a :: as, b :: bs => a < b || (a = b && charListLt as bs)

/-- `std::string`'s `operator<`, the key order of
`std::map<std::string, V>`. -/
def strLt (a b : String) : Bool := charListLt a.data b.data

/-- Lookup in a `std::map<std::string, V>` embedded as an association list. -/
def mapLookup {V : Type} (k : String) : List (String × V) → Option V
  | [] => none
  | (k', v') :: rest => if k = k' then some v' else mapLookup k rest

/-- Insertion into a `std::map<std::string, V>` embedded as a strictly
key-sorted association list: the new entry is placed at its ordered
position (keys are compared with `std::string`'s lexicographic `<`). -/
def mapInsert {V : Type} (k : String) (v : V) : List (String × V) → List (String × V)
  | [] => [(k, v)]
  | (k', v') :: rest =>
      if strLt k k' then (k, v) :: (k', v') :: rest
      else if k = k' then (k, v) :: rest
      else (k', v') :: mapInsert k v rest

/-- One direction's registry state, bundling the three structures the header
keeps per direction: the insertion-ordered id vector, the name → ownership
handle map and the name → type identity map.  Used as a proof-side view of
the six `SegmentModule` members. -/
structure Registry where
  ids : List String
  ports : List (String × Nat)
  types : List (String × Nat)

namespace Registry

/-- The pure effect of one successful registration on one direction's
registry: append the name to the id vector and insert into both maps. -/
def reg (r : Registry) (x : String × Nat × Nat) : Registry :=
  { ids := r.ids ++ [x.1]
    ports := mapInsert x.1 x.2.1 r.ports
    types := mapInsert x.1 x.2.2 r.types }

/-- The pure effect of a sequence of successful registrations. -/
def regAll (r : Registry) (xs : List (String × Nat × Nat)) : Registry :=
  xs.foldl reg r

/-- Consistency of one direction's registry: the id vector has no
duplicates, and both maps hold exactly the names of the id vector. -/
def Inv (r : Registry) : Prop :=
  r.ids.Nodup ∧ (r.ports.map Prod.fst).Perm r.ids ∧ (r.types.map Prod.fst).Perm r.ids

end Registry

/-- Character-level join of a list of character sequences with the
separator character interspersed. -/
def joinChars : List (List Char) → List Char
  | [] => []
  | [x] => x
  | x :: rest => x ++ '/' :: joinChars rest

namespace srf

namespace modules

/-- The state of a `srf::modules::SegmentModule` instance, with the private
members of the header (`m_module_name`, `m_component_prefix`, the six
registry members, `m_config`), plus the explicit initialized flag demanded
by the spec's state machine (Constructed → Initializing → Ready;
re-initialization rejected with `AlreadyInitialized`). -/
structure SegmentModule where
  m_module_name : String
  m_component_prefix : String
  m_input_port_ids : List String
  m_output_port_ids : List String
  m_input_port_type_indices : List (String × Nat)
  m_output_port_type_indices : List (String × Nat)
  m_input_ports : List (String × Nat)
  m_output_ports : List (String × Nat)
  m_config : Json
  m_initialized : Bool

namespace SegmentModule

/-- The fixed hierarchy separator of the naming/prefix resolver.  The spec's
worked scenario (`"A and child" ↦ "A/child"`) fixes it to `/`. -/
def separator : String := "/"

/-- Modelled from the spec: the body of `component_prefix` computation is not
in the repository fragment.  §4.3: the prefix is the instance's own name if
it has no parent scope, otherwise the parent's `component_prefix`
concatenated with the separator and the instance's own name. -/
def componentPrefixFor (parent : Option SegmentModule) (module_name : String) : String :=
  match parent with
  | none => module_name
  | some p => m_component_prefix p ++ separator ++ module_name

/-- Modelled from the spec: the constructor bodies
`SegmentModule(std::string)` / `SegmentModule(std::string, nlohmann::json)`
are not in the repository fragment.  §4.5: construction fails with
`InvalidName` on an empty name; otherwise the instance starts Constructed:
name and config set, all six registries empty, prefix resolved against the
(optional) parent scope. -/
def construct (parent : Option SegmentModule) (module_name : String) (config : Json) :
    Except ModuleError SegmentModule :=
  if module_name = "" then .error .InvalidName
  else .ok
    { m_module_name := module_name
      m_component_prefix := componentPrefixFor parent module_name
      m_input_port_ids := []
      m_output_port_ids := []
      m_input_port_type_indices := []
      m_output_port_type_indices := []
      m_input_ports := []
      m_output_ports := []
      m_config := config
      m_initialized := false }

/-- Modelled from the spec: the one-argument constructor
`SegmentModule(std::string module_name)` supplies no configuration; §4.4:
the carrier then holds the well-defined empty/default document
(default-constructed `nlohmann::json`, i.e. null). -/
def constructNoConfig (parent : Option SegmentModule) (module_name : String) :
    Except ModuleError SegmentModule :=
  construct parent module_name Json.null

def name (m : SegmentModule) : String := m.m_module_name

def component_prefix (m : SegmentModule) : String := m_component_prefix m

def config (m : SegmentModule) : Json := m.m_config

/-- Modelled from the spec: the body of `get_module_component_name` is not in
the repository fragment.  §4.3: `component_prefix` concatenated with the
separator and `component_name`. -/
def get_module_component_name (m : SegmentModule) (component_name : String) : String :=
  m_component_prefix m ++ separator ++ component_name

def input_ids (m : SegmentModule) : List String := m.m_input_port_ids

def output_ids (m : SegmentModule) : List String := m.m_output_port_ids

def input_ports (m : SegmentModule) : List (String × Nat) := m.m_input_ports

def output_ports (m : SegmentModule) : List (String × Nat) := m.m_output_ports

def input_port_type_ids (m : SegmentModule) : List (String × Nat) :=
  m.m_input_port_type_indices

def output_port_type_ids (m : SegmentModule) : List (String × Nat) :=
  m.m_output_port_type_indices

/-- Modelled from the spec: the body of `input_port` is not in the repository
fragment.  §4.2: returns the Port Binding's ownership handle; fails with
`UnknownPort` if the name was never registered as an input. -/
def input_port (m : SegmentModule) (input_name : String) : Except ModuleError Nat :=
  match mapLookup input_name m.m_input_ports with
  | some object => .ok object
  | none => .error .UnknownPort

/-- Modelled from the spec: the body of `input_port_type_id` is not in the
repository fragment.  §4.2: returns the stored type identity; fails with
`UnknownPort` under the same condition as `input_port`. -/
def input_port_type_id (m : SegmentModule) (input_name : String) : Except ModuleError Nat :=
  match mapLookup input_name m.m_input_port_type_indices with
  | some tinfo => .ok tinfo
  | none => .error .UnknownPort

/-- Modelled from the spec: the body of `output_port` is not in the repository
fragment; symmetric to `input_port`. -/
def output_port (m : SegmentModule) (output_name : String) : Except ModuleError Nat :=
  match mapLookup output_name m.m_output_ports with
  | some object => .ok object
  | none => .error .UnknownPort

/-- Modelled from the spec: the body of `output_port_type_id` is not in the
repository fragment; symmetric to `input_port_type_id`. -/
def output_port_type_id (m : SegmentModule) (output_name : String) : Except ModuleError Nat :=
  match mapLookup output_name m.m_output_port_type_indices with
  | some tinfo => .ok tinfo
  | none => .error .UnknownPort

/-- Modelled from the spec: the body of `register_input_port` is not in the
repository fragment.  §4.2 `register_port`: fails with `DuplicatePort` if
the name is already registered in this direction (the name check comes
before anything else, so no type comparison is ever reached); otherwise
stores the binding in the port map and the type map and appends the name to
the ordered id list. -/
def register_input_port (m : SegmentModule) (input_name : String) (object : Nat)
    (tinfo : Nat) : Except ModuleError SegmentModule :=
  if (mapLookup input_name m.m_input_ports).isSome then .error .DuplicatePort
  else .ok
    { m with
      m_input_port_ids := m.m_input_port_ids ++ [input_name]
      m_input_ports := mapInsert input_name object m.m_input_ports
      m_input_port_type_indices := mapInsert input_name tinfo m.m_input_port_type_indices }

/-- Modelled from the spec: the body of `register_output_port` is not in the
repository fragment; symmetric to `register_input_port`. -/
def register_output_port (m : SegmentModule) (output_name : String) (object : Nat)
    (tinfo : Nat) : Except ModuleError SegmentModule :=
  if (mapLookup output_name m.m_output_ports).isSome then .error .DuplicatePort
  else .ok
    { m with
      m_output_port_ids := m.m_output_port_ids ++ [output_name]
      m_output_ports := mapInsert output_name object m.m_output_ports
      m_output_port_type_indices := mapInsert output_name tinfo m.m_output_port_type_indices }

/-- One port registration performed by a concrete module's `initialize`
body through the protected interface: direction, name, ownership handle,
type identity. -/
inductive RegOp where
  | input (input_name : String) (object : Nat) (tinfo : Nat) : RegOp
  | output (output_name : String) (object : Nat) (tinfo : Nat) : RegOp
deriving DecidableEq, Repr

/-- Apply one registration, keeping the previous state when the registration
fails (the duplicate-name check precedes any mutation, so a failing call
leaves the registries unchanged). -/
def applyRegOp (m : SegmentModule) (op : RegOp) : SegmentModule :=
  match op with
  | .input n o t =>
      match register_input_port m n o t with
      | .ok m' => m'
      | .error _ => m
  | .output n o t =>
      match register_output_port m n o t with
      | .ok m' => m'
      | .error _ => m

/-- A concrete module's `initialize(builder)` body, abstracted as the
sequence of port registrations it performs through the protected
interface. -/
def runInitialize (m : SegmentModule) (ops : List RegOp) : SegmentModule :=
  ops.foldl applyRegOp m

/-- Modelled from the spec: the header defines `operator()(Builder&)` inline
as a plain forward to `initialize`, with no guard; §4.5's state machine
requires a second invocation to be rejected with `AlreadyInitialized`,
leaving the state untouched.  Returns the error outcome together with the
(possibly updated) instance state. -/
def callOperator (m : SegmentModule) (ops : List RegOp) :
    Option ModuleError × SegmentModule :=
  if m.m_initialized then (some .AlreadyInitialized, m)
  else (none, { runInitialize m ops with m_initialized := true })

/-- Register a whole sequence of input ports, propagating the first
failure (the shape of a concrete module's `initialize` body that only
declares input ports). -/
def registerInputsE (m : SegmentModule) :
    List (String × Nat × Nat) → Except ModuleError SegmentModule
  | [] => .ok m
  | x :: rest =>
      match register_input_port m x.1 x.2.1 x.2.2 with
      | .ok m' => registerInputsE m' rest
      | .error e => .error e

/-- Register a whole sequence of output ports, propagating the first
failure. -/
def registerOutputsE (m : SegmentModule) :
    List (String × Nat × Nat) → Except ModuleError SegmentModule
  | [] => .ok m
  | x :: rest =>
      match register_output_port m x.1 x.2.1 x.2.2 with
      | .ok m' => registerOutputsE m' rest
      | .error e => .error e

/-- Proof-side view of the three input-direction members. -/
def inputRegistry (m : SegmentModule) : Registry :=
  { ids := m.m_input_port_ids
    ports := m.m_input_ports
    types := m.m_input_port_type_indices }

/-- Proof-side view of the three output-direction members. -/
def outputRegistry (m : SegmentModule) : Registry :=
  { ids := m.m_output_port_ids
    ports := m.m_output_ports
    types := m.m_output_port_type_indices }

/-- Registry consistency of a module instance: both directions consistent
(§3 invariants). -/
def ModuleInv (m : SegmentModule) : Prop :=
  Registry.Inv ( inputRegistry m) ∧ Registry.Inv ( outputRegistry m)

/-- Construct a chain of nested module instances below a given parent, one
child per name, each the child of the previous one; returns the innermost
instance. -/
def constructPathFrom (parent : SegmentModule) : List String → Except ModuleError SegmentModule
  | [] => .ok parent
  | c :: rest =>
      match constructNoConfig (some parent) c with
      | .ok child => constructPathFrom child rest
      | .error e => .error e

/-- Construct a chain of nested module instances along a root-first path of
names: the first name is a root module, each later name a child of the
previous one (no configuration documents); returns the innermost
instance. -/
def constructPath : List String → Except ModuleError SegmentModule
  | [] => .error .InvalidName
  | n :: rest =>
      match constructNoConfig none n with
      | .ok root => constructPathFrom root rest
      | .error e => .error e

/-- The hierarchical name determined by a root-first ancestry path of module
names: the names joined with the separator (empty for the empty path). -/
def prefixOfPath : List String → String
  | [] => ""
  | [n] => n
  | n :: rest => n ++ separator ++ prefixOfPath rest

/-- A concrete constructed module instance (name "m", no parent scope, null
configuration, empty registries), used to exercise the operations on
explicit inputs. -/
def exEmpty : SegmentModule :=
  { m_module_name := "m"
    m_component_prefix := "m"
    m_input_port_ids := []
    m_output_port_ids := []
    m_input_port_type_indices := []
    m_output_port_type_indices := []
    m_input_ports := []
    m_output_ports := []
    m_config := Json.null
    m_initialized := false }

/-- A concrete module instance with one input port "p" (ownership handle 3,
type identity 7) already registered, used to exercise the duplicate-name
path. -/
def exDup : SegmentModule :=
  { m_module_name := "m"
    m_component_prefix := "m"
    m_input_port_ids := ["p"]
    m_output_port_ids := []
    m_input_port_type_indices := [("p", 7)]
    m_output_port_type_indices := []
    m_input_ports := [("p", 3)]
    m_output_ports := []
    m_config := Json.null
    m_initialized := false }

/-- A concrete child instance of `exEmpty` named "child". -/
def exChild : SegmentModule :=
  { m_module_name := "child"
    m_component_prefix := "m/child"
    m_input_port_ids := []
    m_output_port_ids := []
    m_input_port_type_indices := []
    m_output_port_type_indices := []
    m_input_ports := []
    m_output_ports := []
    m_config := Json.null
    m_initialized := false }

/-- The state of `exEmpty` after registering input "b" (handle 0, type 0)
and then input "a" (handle 1, type 1): the id vector keeps registration
order while both maps are key-sorted. -/
def exBA : SegmentModule :=
  { exEmpty with
    m_input_port_ids := ["b", "a"]
    m_input_ports := [("a", 1), ("b", 0)]
    m_input_port_type_indices := [("a", 1), ("b", 0)] }

/-- The innermost instance of the three-level chain "a" / "b" / "c". -/
def exABC : SegmentModule :=
  { m_module_name := "c"
    m_component_prefix := "a/b/c"
    m_input_port_ids := []
    m_output_port_ids := []
    m_input_port_type_indices := []
    m_output_port_type_indices := []
    m_input_ports := []
    m_output_ports := []
    m_config := Json.null
    m_initialized := false }

/-- The innermost instance of the three-level chain "a" / "b" / "d". -/
def exABD : SegmentModule :=
  { m_module_name := "d"
    m_component_prefix := "a/b/d"
    m_input_port_ids := []
    m_output_port_ids := []
    m_input_port_type_indices := []
    m_output_port_type_indices := []
    m_input_ports := []
    m_output_ports := []
    m_config := Json.null
    m_initialized := false }

end SegmentModule


end modules

end srf

/-! ## Order lemmas for the map key order -/

theorem charListLt_irrefl : ∀ l : List Char, charListLt l l = false
  | [] => rfl
  | a :: as => by
      simp [charListLt, charListLt_irrefl as]

theorem charListLt_trans :
    ∀ l1 l2 l3 : List Char, charListLt l1 l2 = true → charListLt l2 l3 = true →
      charListLt l1 l3 = true
  | _, [], _, h12, _ => by simp [charListLt] at h12
  | _, _ :: _, [], _, h23 => by simp [charListLt] at h23
  | [], _ :: _, _ :: _, _, _ => by simp [charListLt]
  | a :: as, b :: bs, c :: cs, h12, h23 => by
      simp only [charListLt, Bool.or_eq_true, Bool.and_eq_true, decide_eq_true_eq] at h12 h23 ⊢
      rcases h12 with hab | ⟨hab, hrec1⟩
      · rcases h23 with hbc | ⟨hbc, _⟩
        · exact Or.inl (lt_trans hab hbc)
        · exact Or.inl (hbc ▸ hab)
      · rcases h23 with hbc | ⟨hbc, hrec2⟩
        · exact Or.inl (hab ▸ hbc)
        · exact Or.inr ⟨hab.trans hbc, charListLt_trans as bs cs hrec1 hrec2⟩

theorem charListLt_total :
    ∀ l l' : List Char, l ≠ l' → charListLt l l' = true ∨ charListLt l' l = true
  | [], [], h => absurd rfl h
  | [], _ :: _, _ => Or.inl (by simp [charListLt])
  | _ :: _, [], _ => Or.inr (by simp [charListLt])
  | a :: as, b :: bs, h => by
      rcases lt_trichotomy a b with hab | hab | hab
      · exact Or.inl (by simp [charListLt, hab])
      · subst hab
        have hne : as ≠ bs := fun he => h (he ▸ rfl)
        rcases charListLt_total as bs hne with hc | hc
        · exact Or.inl (by simp [charListLt, hc])
        · exact Or.inr (by simp [charListLt, hc])
      · exact Or.inr (by simp [charListLt, hab])

theorem strLt_irrefl (s : String) : strLt s s = false :=
  charListLt_irrefl s.data

theorem strLt_trans {a b c : String} (h1 : strLt a b = true) (h2 : strLt b c = true) :
    strLt a c = true :=
  charListLt_trans a.data b.data c.data h1 h2

theorem strLt_total (a b : String) (h : a ≠ b) : strLt a b = true ∨ strLt b a = true :=
  charListLt_total a.data b.data (fun hd => h (String.ext hd))

theorem strLt_asymm {a b : String} (h : strLt a b = true) : strLt b a = false := by
  by_contra hc
  have hba : strLt b a = true := by
    cases hx : strLt b a
    · exact absurd hx hc
    · rfl
  have : strLt a a = true := strLt_trans h hba
  rw [strLt_irrefl] at this
  exact Bool.false_ne_true this

/-! ## Lemmas about the association-list map -/

theorem mapLookup_eq_none_iff {V : Type} (k : String) :
    ∀ l : List (String × V), mapLookup k l = none ↔ k ∉ l.map Prod.fst
  | [] => by simp [mapLookup]
  | (k', v') :: rest => by
      by_cases h : k = k'
      · subst h; simp [mapLookup]
      · simp [mapLookup, h, mapLookup_eq_none_iff k rest]

theorem mapLookup_mapInsert_self {V : Type} (k : String) (v : V) :
    ∀ l : List (String × V), mapLookup k (mapInsert k v l) = some v
  | [] => by simp [mapInsert, mapLookup]
  | (k', v') :: rest => by
      by_cases h1 : strLt k k' = true
      · simp [mapInsert, h1, mapLookup]
      · by_cases h2 : k = k'
        · subst h2
          simp [mapInsert, strLt_irrefl, mapLookup]
        · simp [mapInsert, h1, h2, mapLookup, mapLookup_mapInsert_self k v rest]

theorem mapLookup_mapInsert_ne {V : Type} (k k' : String) (v : V) (h : k' ≠ k) :
    ∀ l : List (String × V), mapLookup k' (mapInsert k v l) = mapLookup k' l
  | [] => by simp [mapInsert, mapLookup, h]
  | (k'', v'') :: rest => by
      by_cases h1 : strLt k k'' = true
      · simp [mapInsert, h1, mapLookup, h]
      · by_cases h2 : k = k''
        · subst h2
          simp [mapInsert, h1, mapLookup, h]
        · simp only [mapInsert, h1, h2, if_false]
          by_cases h3 : k' = k''
          · simp [mapLookup, h3]
          · simp [mapLookup, h3, mapLookup_mapInsert_ne k k' v h rest]

theorem mapInsert_cons_eq {V : Type} (k : String) (v v' : V) (rest : List (String × V)) :
    mapInsert k v ((k, v') :: rest) = (k, v) :: rest := by
  simp [mapInsert, strLt_irrefl]

theorem mapInsert_cons_lt {V : Type} {k k' : String} (v v' : V) (rest : List (String × V))
    (h : strLt k k' = true) :
    mapInsert k v ((k', v') :: rest) = (k, v) :: (k', v') :: rest := by
  simp [mapInsert, h]

theorem mapInsert_cons_gt {V : Type} {k k' : String} (v v' : V) (rest : List (String × V))
    (h1 : ¬ strLt k k' = true) (h2 : k ≠ k') :
    mapInsert k v ((k', v') :: rest) = (k', v') :: mapInsert k v rest := by
  simp [mapInsert, h1, h2]

theorem mem_keys_mapInsert {V : Type} (b k : String) (v : V)
    (l : List (String × V)) (hmem : b ∈ (mapInsert k v l).map Prod.fst) :
    b = k ∨ b ∈ l.map Prod.fst := by
  induction l with
  | nil => simpa [mapInsert] using hmem
  | cons p rest ih =>
      obtain ⟨k', v'⟩ := p
      by_cases h1 : strLt k k' = true
      · simp only [mapInsert, h1, if_true, List.map_cons, List.mem_cons] at hmem ⊢
        tauto
      · by_cases h2 : k = k'
        · subst h2
          rw [mapInsert_cons_eq] at hmem
          simp only [List.map_cons, List.mem_cons] at hmem ⊢
          tauto
        · rw [mapInsert_cons_gt v v' rest h1 h2] at hmem
          simp only [List.map_cons, List.mem_cons] at hmem ⊢
          rcases hmem with h | h
          · exact Or.inr (Or.inl h)
          · rcases ih h with hb | hb
            · exact Or.inl hb
            · exact Or.inr (Or.inr hb)


theorem keys_mapInsert_perm {V : Type} (k : String) (v : V) :
    ∀ l : List (String × V), k ∉ l.map Prod.fst →
      ((mapInsert k v l).map Prod.fst).Perm (k :: l.map Prod.fst)
  | [], _ => by simp [mapInsert]
  | (k', v') :: rest, h => by
      rw [List.map_cons, List.mem_cons] at h
      push_neg at h
      obtain ⟨hk', hk⟩ := h
      by_cases h1 : strLt k k' = true
      · simp [mapInsert, h1]
      · by_cases h2 : k = k'
        · exact absurd h2 hk'
        · simp only [mapInsert, h1, h2, if_false, List.map_cons]
          have hrec := keys_mapInsert_perm k v rest hk
          exact (List.Perm.cons k' hrec).trans (List.Perm.swap k k' _)

theorem sorted_keys_mapInsert {V : Type} (k : String) (v : V) :
    ∀ l : List (String × V),
      List.Sorted (fun a b => strLt a b = true) (l.map Prod.fst) →
      List.Sorted (fun a b => strLt a b = true) ((mapInsert k v l).map Prod.fst)
  | [], _ => by simp [mapInsert]
  | (k', v') :: rest, hs => by
      rw [List.map_cons, List.sorted_cons] at hs
      obtain ⟨hk'all, hrest⟩ := hs
      by_cases h1 : strLt k k' = true
      · simp only [mapInsert, h1, if_true, List.map_cons]
        rw [List.sorted_cons]
        refine ⟨?_, ?_⟩
        · intro b hb
          rcases List.mem_cons.mp hb with rfl | hb'
          · exact h1
          · exact strLt_trans h1 (hk'all b hb')
        · rw [List.sorted_cons]
          exact ⟨hk'all, hrest⟩
      · by_cases h2 : k = k'
        · subst h2
          rw [mapInsert_cons_eq, List.map_cons, List.sorted_cons]
          exact ⟨hk'all, hrest⟩
        · have hlt : strLt k' k = true := by
            rcases strLt_total k k' h2 with hx | hx
            · exact absurd hx h1
            · exact hx
          rw [mapInsert_cons_gt v v' rest h1 h2, List.map_cons, List.sorted_cons]
          refine ⟨?_, sorted_keys_mapInsert k v rest hrest⟩
          intro b hb
          rcases mem_keys_mapInsert b k v rest hb with rfl | hb'
          · exact hlt
          · exact hk'all b hb'

/-! ## Lemmas about one direction's registry under a registration sequence -/

namespace Registry

theorem regAll_cons (r : Registry) (x : String × Nat × Nat) (xs : List (String × Nat × Nat)) :
    regAll r (x :: xs) = regAll (reg r x) xs := rfl

theorem ids_regAll (xs : List (String × Nat × Nat)) :
    ∀ r : Registry, (regAll r xs).ids = r.ids ++ xs.map Prod.fst := by
  induction xs with
  | nil => intro r; simp [regAll]
  | cons x rest ih =>
      intro r
      rw [regAll_cons, ih]
      simp [reg]

theorem lookup_regAll_not_mem (xs : List (String × Nat × Nat)) :
    ∀ (r : Registry) (n : String), n ∉ xs.map Prod.fst →
      mapLookup n (regAll r xs).ports = mapLookup n r.ports ∧
      mapLookup n (regAll r xs).types = mapLookup n r.types := by
  induction xs with
  | nil => intro r n _; exact ⟨rfl, rfl⟩
  | cons x rest ih =>
      intro r n hn
      rw [List.map_cons, List.mem_cons] at hn
      push_neg at hn
      obtain ⟨hne, hnr⟩ := hn
      rw [regAll_cons]
      obtain ⟨hp, ht⟩ := ih (reg r x) n hnr
      refine ⟨?_, ?_⟩
      · rw [hp]
        exact mapLookup_mapInsert_ne x.1 n x.2.1 hne r.ports
      · rw [ht]
        exact mapLookup_mapInsert_ne x.1 n x.2.2 hne r.types

theorem lookup_regAll_mem (xs : List (String × Nat × Nat)) (hnd : (xs.map Prod.fst).Nodup) :
    ∀ (r : Registry), ∀ x ∈ xs,
      mapLookup x.1 (regAll r xs).ports = some x.2.1 ∧
      mapLookup x.1 (regAll r xs).types = some x.2.2 := by
  induction xs with
  | nil => intro r x hx; exact absurd hx (List.not_mem_nil x)
  | cons y rest ih =>
      intro r x hx
      rw [List.map_cons, List.nodup_cons] at hnd
      obtain ⟨hy, hndr⟩ := hnd
      rw [regAll_cons]
      rcases List.mem_cons.mp hx with rfl | hx'
      · obtain ⟨hp, ht⟩ := lookup_regAll_not_mem rest (reg r x) x.1 hy
        refine ⟨?_, ?_⟩
        · rw [hp]
          exact mapLookup_mapInsert_self x.1 x.2.1 r.ports
        · rw [ht]
          exact mapLookup_mapInsert_self x.1 x.2.2 r.types
      · exact ih hndr (reg r y) x hx'

theorem keys_regAll_perm (xs : List (String × Nat × Nat)) :
    ∀ r : Registry, (xs.map Prod.fst).Nodup →
      (∀ n ∈ xs.map Prod.fst, mapLookup n r.ports = none ∧ mapLookup n r.types = none) →
      ((regAll r xs).ports.map Prod.fst).Perm (xs.map Prod.fst ++ r.ports.map Prod.fst) ∧
      ((regAll r xs).types.map Prod.fst).Perm (xs.map Prod.fst ++ r.types.map Prod.fst) := by
  induction xs with
  | nil => intro r _ _; exact ⟨List.Perm.refl _, List.Perm.refl _⟩
  | cons x rest ih =>
      intro r hnd hfresh
      rw [List.map_cons, List.nodup_cons] at hnd
      obtain ⟨hx, hndr⟩ := hnd
      have hxf := hfresh x.1 (by simp)
      have hfresh' : ∀ n ∈ rest.map Prod.fst,
          mapLookup n (reg r x).ports = none ∧ mapLookup n (reg r x).types = none := by
        intro n hn
        have hne : n ≠ x.1 := fun he => hx (he ▸ hn)
        obtain ⟨hp0, ht0⟩ := hfresh n (by simp [hn])
        constructor
        · rw [show (reg r x).ports = mapInsert x.1 x.2.1 r.ports from rfl,
            mapLookup_mapInsert_ne x.1 n x.2.1 hne r.ports]
          exact hp0
        · rw [show (reg r x).types = mapInsert x.1 x.2.2 r.types from rfl,
            mapLookup_mapInsert_ne x.1 n x.2.2 hne r.types]
          exact ht0
      rw [regAll_cons]
      obtain ⟨hpp, htp⟩ := ih (reg r x) hndr hfresh'
      have hxp : x.1 ∉ r.ports.map Prod.fst := (mapLookup_eq_none_iff x.1 r.ports).mp hxf.1
      have hxt : x.1 ∉ r.types.map Prod.fst := (mapLookup_eq_none_iff x.1 r.types).mp hxf.2
      constructor
      · refine hpp.trans ?_
        refine (List.Perm.append_left (rest.map Prod.fst)
          (keys_mapInsert_perm x.1 x.2.1 r.ports hxp)).trans ?_
        simp
      · refine htp.trans ?_
        refine (List.Perm.append_left (rest.map Prod.fst)
          (keys_mapInsert_perm x.1 x.2.2 r.types hxt)).trans ?_
        simp

theorem sorted_keys_regAll (xs : List (String × Nat × Nat)) :
    ∀ r : Registry,
      List.Sorted (fun a b => strLt a b = true) (r.ports.map Prod.fst) →
      List.Sorted (fun a b => strLt a b = true) (r.types.map Prod.fst) →
      List.Sorted (fun a b => strLt a b = true) ((regAll r xs).ports.map Prod.fst) ∧
      List.Sorted (fun a b => strLt a b = true) ((regAll r xs).types.map Prod.fst) := by
  induction xs with
  | nil => intro r hp ht; exact ⟨hp, ht⟩
  | cons x rest ih =>
      intro r hp ht
      rw [regAll_cons]
      exact ih (reg r x) (sorted_keys_mapInsert x.1 x.2.1 r.ports hp)
        (sorted_keys_mapInsert x.1 x.2.2 r.types ht)

end Registry

/-! ## Module-level lemmas -/

namespace srf.modules.SegmentModule

theorem register_input_port_ok (m : SegmentModule) (n : String) (o t : Nat)
    (h : mapLookup n m.m_input_ports = none) :
    register_input_port m n o t =
      .ok { m with
            m_input_port_ids := m.m_input_port_ids ++ [n]
            m_input_ports := mapInsert n o m.m_input_ports
            m_input_port_type_indices := mapInsert n t m.m_input_port_type_indices } := by
  simp [register_input_port, h]

theorem register_output_port_ok (m : SegmentModule) (n : String) (o t : Nat)
    (h : mapLookup n m.m_output_ports = none) :
    register_output_port m n o t =
      .ok { m with
            m_output_port_ids := m.m_output_port_ids ++ [n]
            m_output_ports := mapInsert n o m.m_output_ports
            m_output_port_type_indices := mapInsert n t m.m_output_port_type_indices } := by
  simp [register_output_port, h]

theorem register_input_port_dup (m : SegmentModule) (n : String) (o t : Nat)
    (h : (mapLookup n m.m_input_ports).isSome = true) :
    register_input_port m n o t = .error .DuplicatePort := by
  simp [register_input_port, h]

theorem register_output_port_dup (m : SegmentModule) (n : String) (o t : Nat)
    (h : (mapLookup n m.m_output_ports).isSome = true) :
    register_output_port m n o t = .error .DuplicatePort := by
  simp [register_output_port, h]

theorem registerInputsE_ok (xs : List (String × Nat × Nat)) :
    ∀ m : SegmentModule, (xs.map Prod.fst).Nodup →
      (∀ n ∈ xs.map Prod.fst, mapLookup n m.m_input_ports = none) →
      ∃ m', registerInputsE m xs = .ok m' ∧
        inputRegistry m' = Registry.regAll ( inputRegistry m) xs ∧
        outputRegistry m' = outputRegistry m ∧
        m'.m_module_name = m.m_module_name ∧
        m_component_prefix m' = m_component_prefix m ∧
        m'.m_config = m.m_config ∧
        m'.m_initialized = m.m_initialized := by
  induction xs with
  | nil =>
      intro m _ _
      exact ⟨m, rfl, rfl, rfl, rfl, rfl, rfl, rfl⟩
  | cons x rest ih =>
      intro m hnd hfresh
      have hx : mapLookup x.1 m.m_input_ports = none := hfresh x.1 (by simp)
      rw [List.map_cons, List.nodup_cons] at hnd
      obtain ⟨hx1, hndr⟩ := hnd
      have hfresh' : ∀ n ∈ rest.map Prod.fst,
          mapLookup n (mapInsert x.1 x.2.1 m.m_input_ports) = none := by
        intro n hn
        have hne : n ≠ x.1 := fun he => hx1 (he ▸ hn)
        rw [mapLookup_mapInsert_ne x.1 n x.2.1 hne m.m_input_ports]
        exact hfresh n (by simp [hn])
      obtain ⟨m', hrun, hinreg, houtreg, hname, hpre, hcfg, hinit⟩ :=
        ih { m with
             m_input_port_ids := m.m_input_port_ids ++ [x.1]
             m_input_ports := mapInsert x.1 x.2.1 m.m_input_ports
             m_input_port_type_indices := mapInsert x.1 x.2.2 m.m_input_port_type_indices }
          hndr hfresh'
      refine ⟨m', ?_, ?_, houtreg, hname, hpre, hcfg, hinit⟩
      · simp only [registerInputsE]
        rw [register_input_port_ok m x.1 x.2.1 x.2.2 hx]
        exact hrun
      · rw [hinreg, Registry.regAll_cons]
        rfl

theorem registerOutputsE_ok (xs : List (String × Nat × Nat)) :
    ∀ m : SegmentModule, (xs.map Prod.fst).Nodup →
      (∀ n ∈ xs.map Prod.fst, mapLookup n m.m_output_ports = none) →
      ∃ m', registerOutputsE m xs = .ok m' ∧
        outputRegistry m' = Registry.regAll ( outputRegistry m) xs ∧
        inputRegistry m' = inputRegistry m ∧
        m'.m_module_name = m.m_module_name ∧
        m_component_prefix m' = m_component_prefix m ∧
        m'.m_config = m.m_config ∧
        m'.m_initialized = m.m_initialized := by
  induction xs with
  | nil =>
      intro m _ _
      exact ⟨m, rfl, rfl, rfl, rfl, rfl, rfl, rfl⟩
  | cons x rest ih =>
      intro m hnd hfresh
      have hx : mapLookup x.1 m.m_output_ports = none := hfresh x.1 (by simp)
      rw [List.map_cons, List.nodup_cons] at hnd
      obtain ⟨hx1, hndr⟩ := hnd
      have hfresh' : ∀ n ∈ rest.map Prod.fst,
          mapLookup n (mapInsert x.1 x.2.1 m.m_output_ports) = none := by
        intro n hn
        have hne : n ≠ x.1 := fun he => hx1 (he ▸ hn)
        rw [mapLookup_mapInsert_ne x.1 n x.2.1 hne m.m_output_ports]
        exact hfresh n (by simp [hn])
      obtain ⟨m', hrun, houtreg, hinreg, hname, hpre, hcfg, hinit⟩ :=
        ih { m with
             m_output_port_ids := m.m_output_port_ids ++ [x.1]
             m_output_ports := mapInsert x.1 x.2.1 m.m_output_ports
             m_output_port_type_indices := mapInsert x.1 x.2.2 m.m_output_port_type_indices }
          hndr hfresh'
      refine ⟨m', ?_, ?_, hinreg, hname, hpre, hcfg, hinit⟩
      · simp only [registerOutputsE]
        rw [register_output_port_ok m x.1 x.2.1 x.2.2 hx]
        exact hrun
      · rw [houtreg, Registry.regAll_cons]
        rfl

theorem applyRegOp_fields (m : SegmentModule) (op : RegOp) :
    (applyRegOp m op).m_module_name = m.m_module_name ∧
    m_component_prefix (applyRegOp m op) = m_component_prefix m ∧
    (applyRegOp m op).m_config = m.m_config ∧
    (applyRegOp m op).m_initialized = m.m_initialized := by
  cases op with
  | input n o t =>
      by_cases h : (mapLookup n m.m_input_ports).isSome = true
      · rw [show applyRegOp m (.input n o t) = m from by
          simp [applyRegOp, register_input_port_dup m n o t h]]
        exact ⟨rfl, rfl, rfl, rfl⟩
      · have hn : mapLookup n m.m_input_ports = none := by
          cases hx : mapLookup n m.m_input_ports
          · rfl
          · exact absurd (by simp [hx]) h
        simp [applyRegOp, register_input_port_ok m n o t hn]
  | output n o t =>
      by_cases h : (mapLookup n m.m_output_ports).isSome = true
      · rw [show applyRegOp m (.output n o t) = m from by
          simp [applyRegOp, register_output_port_dup m n o t h]]
        exact ⟨rfl, rfl, rfl, rfl⟩
      · have hn : mapLookup n m.m_output_ports = none := by
          cases hx : mapLookup n m.m_output_ports
          · rfl
          · exact absurd (by simp [hx]) h
        simp [applyRegOp, register_output_port_ok m n o t hn]

theorem runInitialize_fields (ops : List RegOp) :
    ∀ m : SegmentModule,
      (runInitialize m ops).m_module_name = m.m_module_name ∧
      m_component_prefix (runInitialize m ops) = m_component_prefix m ∧
      (runInitialize m ops).m_config = m.m_config ∧
      (runInitialize m ops).m_initialized = m.m_initialized := by
  induction ops with
  | nil => intro m; exact ⟨rfl, rfl, rfl, rfl⟩
  | cons op rest ih =>
      intro m
      obtain ⟨h1, h2, h3, h4⟩ := ih (applyRegOp m op)
      obtain ⟨g1, g2, g3, g4⟩ := applyRegOp_fields m op
      exact ⟨h1.trans g1, h2.trans g2, h3.trans g3, h4.trans g4⟩

end srf.modules.SegmentModule

/-! ## Lemmas about the hierarchical naming resolver -/

theorem sepFree_append_inj :
    ∀ x y r s : List Char, '/' ∉ x → '/' ∉ y →
      (r = [] ∨ ∃ r', r = '/' :: r') → (s = [] ∨ ∃ s', s = '/' :: s') →
      x ++ r = y ++ s → x = y ∧ r = s
  | [], y, r, s, _, hy, hr, _, h => by
      cases y with
      | nil => exact ⟨rfl, by simpa using h⟩
      | cons c y' =>
          rw [List.nil_append, List.cons_append] at h
          rcases hr with rfl | ⟨r', rfl⟩
          · exact absurd h (by simp)
          · have : c = '/' := (List.cons.injEq _ _ _ _ ▸ h).1.symm
            exact absurd (this ▸ List.mem_cons_self c y') hy
  | a :: x', y, r, s, hx, hy, hr, hs, h => by
      cases y with
      | nil =>
          rw [List.nil_append, List.cons_append] at h
          rcases hs with rfl | ⟨s', rfl⟩
          · exact absurd h.symm (by simp)
          · have : a = '/' := (List.cons.injEq _ _ _ _ ▸ h).1
            exact absurd (this ▸ List.mem_cons_self a x') hx
      | cons b y' =>
          rw [List.cons_append, List.cons_append] at h
          obtain ⟨hab, hrest⟩ := List.cons.injEq _ _ _ _ ▸ h
          have hx' : '/' ∉ x' := fun hm => hx (List.mem_cons_of_mem a hm)
          have hy' : '/' ∉ y' := fun hm => hy (List.mem_cons_of_mem b hm)
          obtain ⟨he, hrs⟩ := sepFree_append_inj x' y' r s hx' hy' hr hs hrest
          exact ⟨by rw [hab, he], hrs⟩

theorem joinChars_inj (ps : List (List Char)) :
    ∀ qs : List (List Char), ps ≠ [] → qs ≠ [] →
      (∀ x ∈ ps, '/' ∉ x) → (∀ x ∈ qs, '/' ∉ x) →
      joinChars ps = joinChars qs → ps = qs := by
  induction ps with
  | nil => intro qs hps _ _ _ _; exact absurd rfl hps
  | cons x ps1 ih =>
      intro qs _ hqs hfp hfq h
      cases qs with
      | nil => exact absurd rfl hqs
      | cons y qs1 =>
          have hfx : '/' ∉ x := hfp x (by simp)
          have hfy : '/' ∉ y := hfq y (by simp)
          cases ps1 with
          | nil =>
              cases qs1 with
              | nil =>
                  rw [show joinChars [x] = x from rfl, show joinChars [y] = y from rfl] at h
                  rw [h]
              | cons y2 qs2 =>
                  rw [show joinChars [x] = x from rfl,
                    show joinChars (y :: y2 :: qs2) = y ++ '/' :: joinChars (y2 :: qs2)
                      from rfl] at h
                  have h' : x ++ [] = y ++ '/' :: joinChars (y2 :: qs2) := by
                    rw [List.append_nil]; exact h
                  obtain ⟨_, hc⟩ := sepFree_append_inj x y [] ('/' :: joinChars (y2 :: qs2))
                    hfx hfy (Or.inl rfl) (Or.inr ⟨_, rfl⟩) h'
                  exact absurd hc.symm (by simp)
          | cons x2 ps2 =>
              cases qs1 with
              | nil =>
                  rw [show joinChars [y] = y from rfl,
                    show joinChars (x :: x2 :: ps2) = x ++ '/' :: joinChars (x2 :: ps2)
                      from rfl] at h
                  have h' : x ++ '/' :: joinChars (x2 :: ps2) = y ++ [] := by
                    rw [List.append_nil]; exact h
                  obtain ⟨_, hc⟩ := sepFree_append_inj x y ('/' :: joinChars (x2 :: ps2)) []
                    hfx hfy (Or.inr ⟨_, rfl⟩) (Or.inl rfl) h'
                  exact absurd hc (by simp)
              | cons y2 qs2 =>
                  rw [show joinChars (x :: x2 :: ps2) = x ++ '/' :: joinChars (x2 :: ps2)
                      from rfl,
                    show joinChars (y :: y2 :: qs2) = y ++ '/' :: joinChars (y2 :: qs2)
                      from rfl] at h
                  obtain ⟨hxy, hc⟩ := sepFree_append_inj x y ('/' :: joinChars (x2 :: ps2))
                    ('/' :: joinChars (y2 :: qs2)) hfx hfy (Or.inr ⟨_, rfl⟩) (Or.inr ⟨_, rfl⟩) h
                  have hj : joinChars (x2 :: ps2) = joinChars (y2 :: qs2) := by
                    simpa using hc
                  have htail : x2 :: ps2 = y2 :: qs2 :=
                    ih (y2 :: qs2) (by simp) (by simp)
                      (fun z hz => hfp z (List.mem_cons_of_mem x hz))
                      (fun z hz => hfq z (List.mem_cons_of_mem y hz)) hj
                  rw [hxy, htail]

namespace srf.modules.SegmentModule

theorem construct_ok (parent : Option SegmentModule) (n : String) (cfg : Json) (h : n ≠ "") :
    construct parent n cfg = .ok
      { m_module_name := n
        m_component_prefix := componentPrefixFor parent n
        m_input_port_ids := []
        m_output_port_ids := []
        m_input_port_type_indices := []
        m_output_port_type_indices := []
        m_input_ports := []
        m_output_ports := []
        m_config := cfg
        m_initialized := false } := by
  simp [construct, h]

theorem prefixOfPath_cons_cons (a b : String) (cs : List String) :
    prefixOfPath (a :: b :: cs) = a ++ separator ++ prefixOfPath (b :: cs) := rfl

theorem prefixOfPath_sep_head (cs : List String) :
    ∀ a c : String,
      prefixOfPath ((a ++ separator ++ c) :: cs) = a ++ separator ++ prefixOfPath (c :: cs) := by
  induction cs with
  | nil => intro a c; rfl
  | cons d ds _ =>
      intro a c
      rw [prefixOfPath_cons_cons, prefixOfPath_cons_cons]
      simp [String.append_assoc]

theorem constructPathFrom_ok (rest : List String) :
    ∀ par : SegmentModule, (∀ n ∈ rest, n ≠ "") →
      ∃ m, constructPathFrom par rest = .ok m ∧
        component_prefix m = prefixOfPath ( component_prefix par :: rest) := by
  induction rest with
  | nil => intro par _; exact ⟨par, rfl, rfl⟩
  | cons c cs ih =>
      intro par hne
      have hc : c ≠ "" := hne c (by simp)
      have hcon : constructNoConfig (some par) c = .ok
          { m_module_name := c
            m_component_prefix := componentPrefixFor (some par) c
            m_input_port_ids := []
            m_output_port_ids := []
            m_input_port_type_indices := []
            m_output_port_type_indices := []
            m_input_ports := []
            m_output_ports := []
            m_config := Json.null
            m_initialized := false } :=
        construct_ok (some par) c Json.null hc
      obtain ⟨m, hm, hp⟩ := ih
        { m_module_name := c
          m_component_prefix := componentPrefixFor (some par) c
          m_input_port_ids := []
          m_output_port_ids := []
          m_input_port_type_indices := []
          m_output_port_type_indices := []
          m_input_ports := []
          m_output_ports := []
          m_config := Json.null
          m_initialized := false }
        (fun x hx => hne x (by simp [hx]))
      refine ⟨m, ?_, ?_⟩
      · simp only [constructPathFrom]
        rw [hcon]
        exact hm
      · rw [hp]
        show prefixOfPath (( m_component_prefix par ++ separator ++ c) :: cs) = _
        rw [prefixOfPath_sep_head]
        rfl

theorem constructPath_ok (p : List String) (hne : p ≠ []) (hall : ∀ n ∈ p, n ≠ "") :
    ∃ m, constructPath p = .ok m ∧ component_prefix m = prefixOfPath p := by
  cases p with
  | nil => exact absurd rfl hne
  | cons n rest =>
      have hn : n ≠ "" := hall n (by simp)
      have hcon : constructNoConfig none n = .ok
          { m_module_name := n
            m_component_prefix := componentPrefixFor none n
            m_input_port_ids := []
            m_output_port_ids := []
            m_input_port_type_indices := []
            m_output_port_type_indices := []
            m_input_ports := []
            m_output_ports := []
            m_config := Json.null
            m_initialized := false } :=
        construct_ok none n Json.null hn
      obtain ⟨m, hm, hp⟩ := constructPathFrom_ok rest
        { m_module_name := n
          m_component_prefix := componentPrefixFor none n
          m_input_port_ids := []
          m_output_port_ids := []
          m_input_port_type_indices := []
          m_output_port_type_indices := []
          m_input_ports := []
          m_output_ports := []
          m_config := Json.null
          m_initialized := false }
        (fun x hx => hall x (by simp [hx]))
      refine ⟨m, ?_, hp⟩
      simp only [constructPath]
      rw [hcon]
      exact hm

theorem prefixOfPath_data :
    ∀ p : List String, (prefixOfPath p).data = joinChars (p.map String.data)
  | [] => rfl
  | [_] => rfl
  | n :: m :: rest => by
      rw [prefixOfPath_cons_cons, String.data_append, String.data_append,
        prefixOfPath_data (m :: rest), show separator.data = ['/'] from rfl,
        List.append_assoc]
      rfl

end srf.modules.SegmentModule

namespace srf.modules.SegmentModule

theorem prefixOfPath_inj (p q : List String) (hp : p ≠ []) (hq : q ≠ [])
    (hfp : ∀ n ∈ p, '/' ∉ n.data) (hfq : ∀ n ∈ q, '/' ∉ n.data)
    (h : prefixOfPath p = prefixOfPath q) : p = q := by
  have hd : joinChars (p.map String.data) = joinChars (q.map String.data) := by
    rw [← prefixOfPath_data, ← prefixOfPath_data, h]
  have hmaps : p.map String.data = q.map String.data :=
    joinChars_inj (p.map String.data) (q.map String.data) (by simpa using hp)
      (by simpa using hq)
      (by
        intro x hx
        obtain ⟨n, hn, rfl⟩ := List.mem_map.mp hx
        exact hfp n hn)
      (by
        intro x hx
        obtain ⟨n, hn, rfl⟩ := List.mem_map.mp hx
        exact hfq n hn)
      hd
  exact List.map_injective_iff.mpr (fun a b hab => String.ext hab) hmaps

theorem construct_inversion (parent : Option SegmentModule) (nm : String) (cfg : Json)
    (m : SegmentModule) (h : construct parent nm cfg = .ok m) :
    nm ≠ "" ∧
    m = { m_module_name := nm
          m_component_prefix := componentPrefixFor parent nm
          m_input_port_ids := []
          m_output_port_ids := []
          m_input_port_type_indices := []
          m_output_port_type_indices := []
          m_input_ports := []
          m_output_ports := []
          m_config := cfg
          m_initialized := false } := by
  by_cases hnm : nm = ""
  · rw [hnm] at h
    simp [construct] at h
  · rw [construct_ok parent nm cfg hnm] at h
    injection h with h2
    exact ⟨hnm, h2.symm⟩

theorem constructNoConfig_ok (parent : Option SegmentModule) (n : String) (h : n ≠ "") :
    constructNoConfig parent n = .ok
      { m_module_name := n
        m_component_prefix := componentPrefixFor parent n
        m_input_port_ids := []
        m_output_port_ids := []
        m_input_port_type_indices := []
        m_output_port_type_indices := []
        m_input_ports := []
        m_output_ports := []
        m_config := Json.null
        m_initialized := false } :=
  construct_ok parent n Json.null h

theorem constructNoConfig_empty (parent : Option SegmentModule) :
    constructNoConfig parent "" = .error .InvalidName := by
  simp [constructNoConfig, construct]

theorem constructPathFrom_names (rest : List String) :
    ∀ par m, constructPathFrom par rest = .ok m → ∀ n ∈ rest, n ≠ "" := by
  induction rest with
  | nil => intro par m _ n hn; exact absurd hn (List.not_mem_nil n)
  | cons c cs ih =>
      intro par m h n hn
      simp only [constructPathFrom] at h
      by_cases hc : c = ""
      · rw [hc, constructNoConfig_empty (some par)] at h
        simp at h
      · rw [constructNoConfig_ok (some par) c hc] at h
        rcases List.mem_cons.mp hn with rfl | hn'
        · exact hc
        · exact ih _ m h n hn'

theorem constructPath_names (p : List String) (m : SegmentModule)
    (h : constructPath p = .ok m) : p ≠ [] ∧ ∀ n ∈ p, n ≠ "" := by
  cases p with
  | nil => simp [constructPath] at h
  | cons c cs =>
      simp only [constructPath] at h
      by_cases hc : c = ""
      · rw [hc, constructNoConfig_empty none] at h
        simp at h
      · rw [constructNoConfig_ok none c hc] at h
        refine ⟨by simp, ?_⟩
        intro n hn
        rcases List.mem_cons.mp hn with rfl | hn'
        · exact hc
        · exact constructPathFrom_names cs _ m h n hn'

end srf.modules.SegmentModule

theorem Registry.inv_reg {r : Registry} (hinv : Registry.Inv r) (x : String × Nat × Nat)
    (hx : mapLookup x.1 r.ports = none) : Registry.Inv (Registry.reg r x) := by
  obtain ⟨hnd, hperm, htperm⟩ := hinv
  have hxp : x.1 ∉ r.ports.map Prod.fst := (mapLookup_eq_none_iff x.1 r.ports).mp hx
  have hxi : x.1 ∉ r.ids := fun hmem => hxp (hperm.mem_iff.mpr hmem)
  have hxt : x.1 ∉ r.types.map Prod.fst := fun hmem => hxi (htperm.mem_iff.mp hmem)
  refine ⟨?_, ?_, ?_⟩
  · show (r.ids ++ [x.1]).Nodup
    rw [(List.perm_append_singleton x.1 r.ids).nodup_iff]
    exact List.nodup_cons.mpr ⟨hxi, hnd⟩
  · show ((mapInsert x.1 x.2.1 r.ports).map Prod.fst).Perm (r.ids ++ [x.1])
    exact ((keys_mapInsert_perm x.1 x.2.1 r.ports hxp).trans
      ((hperm.cons x.1).trans (List.perm_append_singleton x.1 r.ids).symm))
  · show ((mapInsert x.1 x.2.2 r.types).map Prod.fst).Perm (r.ids ++ [x.1])
    exact ((keys_mapInsert_perm x.1 x.2.2 r.types hxt).trans
      ((htperm.cons x.1).trans (List.perm_append_singleton x.1 r.ids).symm))

namespace srf.modules.SegmentModule

theorem applyRegOp_inv (m : SegmentModule) (op : RegOp) (h : ModuleInv m) :
    ModuleInv (applyRegOp m op) := by
  obtain ⟨hin, hout⟩ := h
  cases op with
  | input n o t =>
      by_cases hd : (mapLookup n m.m_input_ports).isSome = true
      · rw [show applyRegOp m (.input n o t) = m from by
          simp [applyRegOp, register_input_port_dup m n o t hd]]
        exact ⟨hin, hout⟩
      · have hn : mapLookup n m.m_input_ports = none := by
          cases hx : mapLookup n m.m_input_ports
          · rfl
          · exact absurd (by simp [hx]) hd
        rw [show applyRegOp m (.input n o t) =
            { m with
              m_input_port_ids := m.m_input_port_ids ++ [n]
              m_input_ports := mapInsert n o m.m_input_ports
              m_input_port_type_indices := mapInsert n t m.m_input_port_type_indices }
          from by simp [applyRegOp, register_input_port_ok m n o t hn]]
        exact ⟨Registry.inv_reg hin (n, o, t) hn, hout⟩
  | output n o t =>
      by_cases hd : (mapLookup n m.m_output_ports).isSome = true
      · rw [show applyRegOp m (.output n o t) = m from by
          simp [applyRegOp, register_output_port_dup m n o t hd]]
        exact ⟨hin, hout⟩
      · have hn : mapLookup n m.m_output_ports = none := by
          cases hx : mapLookup n m.m_output_ports
          · rfl
          · exact absurd (by simp [hx]) hd
        rw [show applyRegOp m (.output n o t) =
            { m with
              m_output_port_ids := m.m_output_port_ids ++ [n]
              m_output_ports := mapInsert n o m.m_output_ports
              m_output_port_type_indices := mapInsert n t m.m_output_port_type_indices }
          from by simp [applyRegOp, register_output_port_ok m n o t hn]]
        exact ⟨hin, Registry.inv_reg hout (n, o, t) hn⟩

theorem runInitialize_inv (ops : List RegOp) :
    ∀ m : SegmentModule, ModuleInv m → ModuleInv (runInitialize m ops) := by
  induction ops with
  | nil => intro m h; exact h
  | cons op rest ih =>
      intro m h
      exact ih (applyRegOp m op) (applyRegOp_inv m op h)

theorem callOperator_cases (m : SegmentModule) (ops : List RegOp) :
    (m.m_initialized = false →
      callOperator m ops = (none, { runInitialize m ops with m_initialized := true })) ∧
    (m.m_initialized = true → callOperator m ops = (some .AlreadyInitialized, m)) := by
  constructor
  · intro h
    simp [callOperator, h]
  · intro h
    simp [callOperator, h]

end srf.modules.SegmentModule

/-! ## The claims -/

namespace srf.modules.SegmentModule

/-- C1: for every module instance and every direction, registering a port
under a name already registered in that same direction fails with
`DuplicatePort` and leaves the instance unchanged — whatever ownership
handle and type identity (in particular a different type identity) the
second registration carries, since the duplicate-name check precedes any
type comparison — while registering the same name once as an input and once
as an output on the same instance succeeds. -/
theorem C1_duplicate_port (m : SegmentModule) :
    (∀ n o t, n ∈ (input_ports m).map Prod.fst →
      register_input_port m n o t = .error .DuplicatePort ∧
      applyRegOp m (.input n o t) = m) ∧
    (∀ n o t, n ∈ (output_ports m).map Prod.fst →
      register_output_port m n o t = .error .DuplicatePort ∧
      applyRegOp m (.output n o t) = m) ∧
    (∀ n o t o' t', mapLookup n (input_ports m) = none →
      mapLookup n (output_ports m) = none →
      ∃ m1 m2, register_input_port m n o t = .ok m1 ∧
        register_output_port m1 n o' t' = .ok m2) := by
  refine ⟨?_, ?_, ?_⟩
  · intro n o t hmem
    have hd : (mapLookup n m.m_input_ports).isSome = true := by
      rw [← Option.ne_none_iff_isSome]
      intro hcon
      exact (mapLookup_eq_none_iff n m.m_input_ports).mp hcon hmem
    exact ⟨register_input_port_dup m n o t hd,
      by simp [applyRegOp, register_input_port_dup m n o t hd]⟩
  · intro n o t hmem
    have hd : (mapLookup n m.m_output_ports).isSome = true := by
      rw [← Option.ne_none_iff_isSome]
      intro hcon
      exact (mapLookup_eq_none_iff n m.m_output_ports).mp hcon hmem
    exact ⟨register_output_port_dup m n o t hd,
      by simp [applyRegOp, register_output_port_dup m n o t hd]⟩
  · intro n o t o' t' hni hno
    have h1 := register_input_port_ok m n o t hni
    have h2 := register_output_port_ok
      { m with
        m_input_port_ids := m.m_input_port_ids ++ [n]
        m_input_ports := mapInsert n o m.m_input_ports
        m_input_port_type_indices := mapInsert n t m.m_input_port_type_indices } n o' t' hno
    exact ⟨_, _, h1, h2⟩

/-- C1 at a concrete instance: on `exDup` (input port "p" present, handle 3,
type identity 7), re-registering "p" with the different type identity 8
fails with `DuplicatePort` and leaves the state unchanged, while the fresh
name "q" registers fine as input and then as output. -/
theorem C1_duplicate_port_witness :
    (("p" : String) ∈ (input_ports exDup).map Prod.fst ∧
      register_input_port exDup "p" 9 8 = .error .DuplicatePort ∧
      applyRegOp exDup (.input "p" 9 8) = exDup) ∧
    (mapLookup "q" (input_ports exDup) = none ∧
      mapLookup "q" (output_ports exDup) = none ∧
      ∃ m1 m2, register_input_port exDup "q" 1 2 = .ok m1 ∧
        register_output_port m1 "q" 3 4 = .ok m2) :=
  ⟨⟨by decide, ((C1_duplicate_port exDup).1 "p" 9 8 (by decide)).1,
     ((C1_duplicate_port exDup).1 "p" 9 8 (by decide)).2⟩,
   ⟨rfl, rfl, (C1_duplicate_port exDup).2.2 "q" 1 2 3 4 rfl rfl⟩⟩

/-- C6: on a freshly constructed instance, the first invocation of the build
entrypoint (`operator()`, forwarding to `initialize`) succeeds; a second
invocation fails with `AlreadyInitialized` and returns the instance state
exactly as the first call produced it (its port registries included). -/
theorem C6_already_initialized (parent : Option SegmentModule) (nm : String) (cfg : Json)
    (m0 : SegmentModule) (hc : construct parent nm cfg = .ok m0) (ops ops' : List RegOp) :
    ∃ m1, callOperator m0 ops = (none, m1) ∧
      callOperator m1 ops' = (some .AlreadyInitialized, m1) := by
  obtain ⟨hnm, hm0⟩ := construct_inversion parent nm cfg m0 hc
  have hini : m0.m_initialized = false := by rw [hm0]
  exact ⟨_, (callOperator_cases m0 ops).1 hini, (callOperator_cases _ ops').2 rfl⟩

/-- C6 at a concrete instance: the constructed module `exEmpty`, initialized
with one input-port registration, rejects a second entrypoint call. -/
theorem C6_already_initialized_witness :
    construct none "m" Json.null = .ok exEmpty ∧
    ∃ m1, callOperator exEmpty [RegOp.input "p" 1 2] = (none, m1) ∧
      callOperator m1 [] = (some .AlreadyInitialized, m1) :=
  ⟨rfl, C6_already_initialized none "m" Json.null exEmpty rfl [RegOp.input "p" 1 2] []⟩

/-- C7: constructing a module instance with the empty-string name fails with
`InvalidName`; for every non-empty name, construction succeeds, `name()`
returns exactly the supplied name, and the instance starts with all six
registry structures empty. -/
theorem C7_construction_name (parent : Option SegmentModule) (nm : String) (cfg : Json)
    (h : nm ≠ "") :
    construct parent "" cfg = .error .InvalidName ∧
    ∃ m, construct parent nm cfg = .ok m ∧ name m = nm ∧
      input_ids m = [] ∧ output_ids m = [] ∧
      input_ports m = [] ∧ output_ports m = [] ∧
      input_port_type_ids m = [] ∧ output_port_type_ids m = [] := by
  refine ⟨by simp [construct], ?_⟩
  exact ⟨_, construct_ok parent nm cfg h, rfl, rfl, rfl, rfl, rfl, rfl, rfl⟩

/-- C7 at a concrete input: the name "A". -/
theorem C7_construction_name_witness :
    ("A" : String) ≠ "" ∧
    (construct none "" Json.null = .error .InvalidName ∧
      ∃ m, construct none "A" Json.null = .ok m ∧ name m = "A" ∧
        input_ids m = [] ∧ output_ids m = [] ∧
        input_ports m = [] ∧ output_ports m = [] ∧
        input_port_type_ids m = [] ∧ output_port_type_ids m = []) :=
  ⟨by decide, C7_construction_name none "A" Json.null (by decide)⟩

/-- C8: a module constructed without a configuration document holds the
well-defined default (null) document; the configuration returned by
`config()` is never mutated by any operation — registration in either
direction and the build entrypoint all leave it equal to the document
supplied at construction.  (Accessors are pure functions of the state in
this embedding and cannot mutate anything.) -/
theorem C8_config_immutable :
    (∀ parent nm m, constructNoConfig parent nm = .ok m → config m = Json.null) ∧
    (∀ parent nm cfg m, construct parent nm cfg = .ok m → config m = cfg) ∧
    (∀ m n o t m', register_input_port m n o t = .ok m' → config m' = config m) ∧
    (∀ m n o t m', register_output_port m n o t = .ok m' → config m' = config m) ∧
    (∀ m ops r m', callOperator m ops = (r, m') → config m' = config m) := by
  refine ⟨?_, ?_, ?_, ?_, ?_⟩
  · intro parent nm m h
    obtain ⟨_, hm⟩ := construct_inversion parent nm Json.null m h
    rw [hm]
    rfl
  · intro parent nm cfg m h
    obtain ⟨_, hm⟩ := construct_inversion parent nm cfg m h
    rw [hm]
    rfl
  · intro m n o t m' h
    by_cases hd : (mapLookup n m.m_input_ports).isSome = true
    · rw [register_input_port_dup m n o t hd] at h
      exact absurd h (by simp)
    · have hn : mapLookup n m.m_input_ports = none := by
        cases hx : mapLookup n m.m_input_ports
        · rfl
        · exact absurd (by simp [hx]) hd
      rw [register_input_port_ok m n o t hn] at h
      injection h with h2
      rw [← h2]
      rfl
  · intro m n o t m' h
    by_cases hd : (mapLookup n m.m_output_ports).isSome = true
    · rw [register_output_port_dup m n o t hd] at h
      exact absurd h (by simp)
    · have hn : mapLookup n m.m_output_ports = none := by
        cases hx : mapLookup n m.m_output_ports
        · rfl
        · exact absurd (by simp [hx]) hd
      rw [register_output_port_ok m n o t hn] at h
      injection h with h2
      rw [← h2]
      rfl
  · intro m ops r m' h
    cases hini : m.m_initialized
    · rw [(callOperator_cases m ops).1 hini, Prod.mk.injEq] at h
      obtain ⟨_, h2⟩ := h
      rw [← h2]
      exact (runInitialize_fields ops m).2.2.1
    · rw [(callOperator_cases m ops).2 hini, Prod.mk.injEq] at h
      obtain ⟨_, h2⟩ := h
      rw [← h2]

/-- C8 at a concrete input: construction of `exEmpty` without a
configuration, followed by a registration and the build entrypoint. -/
theorem C8_config_immutable_witness :
    constructNoConfig none "m" = .ok exEmpty ∧ config exEmpty = Json.null ∧
    callOperator exEmpty [RegOp.input "p" 1 2] =
      (none, { runInitialize exEmpty [RegOp.input "p" 1 2] with m_initialized := true }) ∧
    config { runInitialize exEmpty [RegOp.input "p" 1 2] with m_initialized := true } =
      config exEmpty :=
  ⟨rfl, C8_config_immutable.1 none "m" exEmpty rfl, rfl,
    C8_config_immutable.2.2.2.2 exEmpty [RegOp.input "p" 1 2] none _ rfl⟩

end srf.modules.SegmentModule

namespace srf.modules.SegmentModule

theorem register_input_port_inversion (m : SegmentModule) (n : String) (o t : Nat)
    (m' : SegmentModule) (h : register_input_port m n o t = .ok m') :
    mapLookup n m.m_input_ports = none ∧
    m' = { m with
           m_input_port_ids := m.m_input_port_ids ++ [n]
           m_input_ports := mapInsert n o m.m_input_ports
           m_input_port_type_indices := mapInsert n t m.m_input_port_type_indices } := by
  by_cases hd : (mapLookup n m.m_input_ports).isSome = true
  · rw [register_input_port_dup m n o t hd] at h
    exact absurd h (by simp)
  · have hn : mapLookup n m.m_input_ports = none := by
      cases hx : mapLookup n m.m_input_ports
      · rfl
      · exact absurd (by simp [hx]) hd
    rw [register_input_port_ok m n o t hn] at h
    injection h with h2
    exact ⟨hn, h2.symm⟩

theorem register_output_port_inversion (m : SegmentModule) (n : String) (o t : Nat)
    (m' : SegmentModule) (h : register_output_port m n o t = .ok m') :
    mapLookup n m.m_output_ports = none ∧
    m' = { m with
           m_output_port_ids := m.m_output_port_ids ++ [n]
           m_output_ports := mapInsert n o m.m_output_ports
           m_output_port_type_indices := mapInsert n t m.m_output_port_type_indices } := by
  by_cases hd : (mapLookup n m.m_output_ports).isSome = true
  · rw [register_output_port_dup m n o t hd] at h
    exact absurd h (by simp)
  · have hn : mapLookup n m.m_output_ports = none := by
      cases hx : mapLookup n m.m_output_ports
      · rfl
      · exact absurd (by simp [hx]) hd
    rw [register_output_port_ok m n o t hn] at h
    injection h with h2
    exact ⟨hn, h2.symm⟩

theorem input_port_eq_ok (m : SegmentModule) (n : String) (v : Nat)
    (h : mapLookup n m.m_input_ports = some v) : input_port m n = .ok v := by
  simp [input_port, h]

theorem input_port_eq_err (m : SegmentModule) (n : String)
    (h : mapLookup n m.m_input_ports = none) : input_port m n = .error .UnknownPort := by
  simp [input_port, h]

theorem input_port_type_id_eq_ok (m : SegmentModule) (n : String) (v : Nat)
    (h : mapLookup n m.m_input_port_type_indices = some v) :
    input_port_type_id m n = .ok v := by
  simp [input_port_type_id, h]

theorem input_port_type_id_eq_err (m : SegmentModule) (n : String)
    (h : mapLookup n m.m_input_port_type_indices = none) :
    input_port_type_id m n = .error .UnknownPort := by
  simp [input_port_type_id, h]

theorem output_port_eq_ok (m : SegmentModule) (n : String) (v : Nat)
    (h : mapLookup n m.m_output_ports = some v) : output_port m n = .ok v := by
  simp [output_port, h]

theorem output_port_eq_err (m : SegmentModule) (n : String)
    (h : mapLookup n m.m_output_ports = none) : output_port m n = .error .UnknownPort := by
  simp [output_port, h]

theorem output_port_type_id_eq_ok (m : SegmentModule) (n : String) (v : Nat)
    (h : mapLookup n m.m_output_port_type_indices = some v) :
    output_port_type_id m n = .ok v := by
  simp [output_port_type_id, h]

theorem output_port_type_id_eq_err (m : SegmentModule) (n : String)
    (h : mapLookup n m.m_output_port_type_indices = none) :
    output_port_type_id m n = .error .UnknownPort := by
  simp [output_port_type_id, h]

end srf.modules.SegmentModule


namespace srf.modules.SegmentModule

/-- C2: registering any sequence of distinct port names on a freshly
constructed instance, in either direction, succeeds and makes the id-list
accessor of that direction (`input_ids` / `output_ids`) return exactly those
names in registration order; moreover every single successful registration
appends its name to the end of that direction's id list.  The accessors are
plain projections of the state in this embedding, hence side-effect
free. -/
theorem C2_insertion_order (parent : Option SegmentModule) (nm : String) (cfg : Json)
    (m0 : SegmentModule) (hc : construct parent nm cfg = .ok m0)
    (xs ys : List (String × Nat × Nat))
    (hxs : (xs.map Prod.fst).Nodup) (hys : (ys.map Prod.fst).Nodup) :
    (∃ mi, registerInputsE m0 xs = .ok mi ∧ input_ids mi = xs.map Prod.fst) ∧
    (∃ mo, registerOutputsE m0 ys = .ok mo ∧ output_ids mo = ys.map Prod.fst) ∧
    (∀ m n o t m', register_input_port m n o t = .ok m' →
      input_ids m' = input_ids m ++ [n]) ∧
    (∀ m n o t m', register_output_port m n o t = .ok m' →
      output_ids m' = output_ids m ++ [n]) := by
  obtain ⟨hnm, hm0⟩ := construct_inversion parent nm cfg m0 hc
  have hfin : ∀ n ∈ xs.map Prod.fst, mapLookup n m0.m_input_ports = none := by
    intro n _
    rw [hm0]
    rfl
  have hfout : ∀ n ∈ ys.map Prod.fst, mapLookup n m0.m_output_ports = none := by
    intro n _
    rw [hm0]
    rfl
  refine ⟨?_, ?_, ?_, ?_⟩
  · obtain ⟨mi, hrun, hinreg, _⟩ := registerInputsE_ok xs m0 hxs hfin
    refine ⟨mi, hrun, ?_⟩
    have hids := congrArg Registry.ids hinreg
    rw [Registry.ids_regAll, hm0] at hids
    exact hids
  · obtain ⟨mo, hrun, houtreg, _⟩ := registerOutputsE_ok ys m0 hys hfout
    refine ⟨mo, hrun, ?_⟩
    have hids := congrArg Registry.ids houtreg
    rw [Registry.ids_regAll, hm0] at hids
    exact hids
  · intro m n o t m' h
    obtain ⟨_, hm'⟩ := register_input_port_inversion m n o t m' h
    rw [hm']
    rfl
  · intro m n o t m' h
    obtain ⟨_, hm'⟩ := register_output_port_inversion m n o t m' h
    rw [hm']
    rfl

/-- C2 at a concrete input: names registered in the order "b", "a" are
reported by the id accessors in exactly that order. -/
theorem C2_insertion_order_witness :
    construct none "m" Json.null = .ok exEmpty ∧
    (([("b", 0, 0), ("a", 1, 1)].map Prod.fst : List String).Nodup ∧
      ([("c", 2, 2)].map Prod.fst : List String).Nodup) ∧
    ((∃ mi, registerInputsE exEmpty [("b", 0, 0), ("a", 1, 1)] = .ok mi ∧
        input_ids mi = [("b", 0, 0), ("a", 1, 1)].map Prod.fst) ∧
      (∃ mo, registerOutputsE exEmpty [("c", 2, 2)] = .ok mo ∧
        output_ids mo = [("c", 2, 2)].map Prod.fst) ∧
      (∀ m n o t m', register_input_port m n o t = .ok m' →
        input_ids m' = input_ids m ++ [n]) ∧
      (∀ m n o t m', register_output_port m n o t = .ok m' →
        output_ids m' = output_ids m ++ [n])) :=
  ⟨rfl, ⟨by decide, by decide⟩,
    C2_insertion_order none "m" Json.null exEmpty rfl
      [("b", 0, 0), ("a", 1, 1)] [("c", 2, 2)] (by decide) (by decide)⟩

/-- C3: on a freshly constructed instance, after registering any sequence of
distinct names in a direction, the single-port lookup of that direction
returns exactly the ownership handle stored at registration and the type
lookup returns exactly the type identity stored at registration, for every
registered name; every name never registered in that direction makes both
lookups fail with `UnknownPort`. -/
theorem C3_port_lookup (parent : Option SegmentModule) (nm : String) (cfg : Json)
    (m0 : SegmentModule) (hc : construct parent nm cfg = .ok m0)
    (xs ys : List (String × Nat × Nat))
    (hxs : (xs.map Prod.fst).Nodup) (hys : (ys.map Prod.fst).Nodup) :
    (∃ mi, registerInputsE m0 xs = .ok mi ∧
      (∀ x ∈ xs, input_port mi x.1 = .ok x.2.1 ∧
        input_port_type_id mi x.1 = .ok x.2.2) ∧
      (∀ n, n ∉ xs.map Prod.fst →
        input_port mi n = .error .UnknownPort ∧
        input_port_type_id mi n = .error .UnknownPort)) ∧
    (∃ mo, registerOutputsE m0 ys = .ok mo ∧
      (∀ y ∈ ys, output_port mo y.1 = .ok y.2.1 ∧
        output_port_type_id mo y.1 = .ok y.2.2) ∧
      (∀ n, n ∉ ys.map Prod.fst →
        output_port mo n = .error .UnknownPort ∧
        output_port_type_id mo n = .error .UnknownPort)) := by
  obtain ⟨hnm, hm0⟩ := construct_inversion parent nm cfg m0 hc
  have hfin : ∀ n ∈ xs.map Prod.fst, mapLookup n m0.m_input_ports = none := by
    intro n _
    rw [hm0]
    rfl
  have hfout : ∀ n ∈ ys.map Prod.fst, mapLookup n m0.m_output_ports = none := by
    intro n _
    rw [hm0]
    rfl
  constructor
  · obtain ⟨mi, hrun, hinreg, _⟩ := registerInputsE_ok xs m0 hxs hfin
    have hports := congrArg Registry.ports hinreg
    have htypes := congrArg Registry.types hinreg
    refine ⟨mi, hrun, ?_, ?_⟩
    · intro x hx
      obtain ⟨hp, ht⟩ := Registry.lookup_regAll_mem xs hxs ( inputRegistry m0) x hx
      constructor
      · refine input_port_eq_ok mi x.1 x.2.1 ?_
        rw [(show mi.m_input_ports = ( inputRegistry mi).ports from rfl), hports]
        exact hp
      · refine input_port_type_id_eq_ok mi x.1 x.2.2 ?_
        rw [(show mi.m_input_port_type_indices = ( inputRegistry mi).types from rfl), htypes]
        exact ht
    · intro n hn
      obtain ⟨hp, ht⟩ := Registry.lookup_regAll_not_mem xs ( inputRegistry m0) n hn
      constructor
      · refine input_port_eq_err mi n ?_
        rw [(show mi.m_input_ports = ( inputRegistry mi).ports from rfl), hports, hp,
          (show ( inputRegistry m0).ports = m0.m_input_ports from rfl), hm0]
        rfl
      · refine input_port_type_id_eq_err mi n ?_
        rw [(show mi.m_input_port_type_indices = ( inputRegistry mi).types from rfl), htypes,
          ht, (show ( inputRegistry m0).types = m0.m_input_port_type_indices from rfl), hm0]
        rfl
  · obtain ⟨mo, hrun, houtreg, _⟩ := registerOutputsE_ok ys m0 hys hfout
    have hports := congrArg Registry.ports houtreg
    have htypes := congrArg Registry.types houtreg
    refine ⟨mo, hrun, ?_, ?_⟩
    · intro y hy
      obtain ⟨hp, ht⟩ := Registry.lookup_regAll_mem ys hys ( outputRegistry m0) y hy
      constructor
      · refine output_port_eq_ok mo y.1 y.2.1 ?_
        rw [(show mo.m_output_ports = ( outputRegistry mo).ports from rfl), hports]
        exact hp
      · refine output_port_type_id_eq_ok mo y.1 y.2.2 ?_
        rw [(show mo.m_output_port_type_indices = ( outputRegistry mo).types from rfl), htypes]
        exact ht
    · intro n hn
      obtain ⟨hp, ht⟩ := Registry.lookup_regAll_not_mem ys ( outputRegistry m0) n hn
      constructor
      · refine output_port_eq_err mo n ?_
        rw [(show mo.m_output_ports = ( outputRegistry mo).ports from rfl), hports, hp,
          (show ( outputRegistry m0).ports = m0.m_output_ports from rfl), hm0]
        rfl
      · refine output_port_type_id_eq_err mo n ?_
        rw [(show mo.m_output_port_type_indices = ( outputRegistry mo).types from rfl), htypes,
          ht, (show ( outputRegistry m0).types = m0.m_output_port_type_indices from rfl), hm0]
        rfl

/-- C3 at a concrete input: after registering input "b" (handle 5, type 6)
on the fresh instance, lookups return the stored values and the
unregistered name "z" fails with `UnknownPort`. -/
theorem C3_port_lookup_witness :
    construct none "m" Json.null = .ok exEmpty ∧
    (∃ mi, registerInputsE exEmpty [("b", 5, 6)] = .ok mi ∧
      (∀ x ∈ [(("b" : String), 5, 6)], input_port mi x.1 = .ok x.2.1 ∧
        input_port_type_id mi x.1 = .ok x.2.2) ∧
      (∀ n, n ∉ ([("b", 5, 6)].map Prod.fst : List String) →
        input_port mi n = .error .UnknownPort ∧
        input_port_type_id mi n = .error .UnknownPort)) :=
  ⟨rfl, (C3_port_lookup none "m" Json.null exEmpty rfl
    [("b", 5, 6)] [("c", 7, 8)] (by decide) (by decide)).1⟩

end srf.modules.SegmentModule

namespace srf.modules.SegmentModule

/-- C4: a root instance's prefix equals its own name; a child instance's
prefix equals the parent's prefix, then the separator, then the child's own
name (so it always begins with the parent's prefix followed by the
separator followed by the child's name); and
`get_module_component_name component_name` equals the prefix concatenated
with the separator and `component_name`. -/
theorem C4_naming :
    (∀ nm cfg m, construct none nm cfg = .ok m → component_prefix m = nm) ∧
    (∀ p nm cfg m, construct (some p) nm cfg = .ok m →
      component_prefix m = component_prefix p ++ separator ++ name m ∧ name m = nm) ∧
    (∀ (m : SegmentModule) (c : String),
      get_module_component_name m c = component_prefix m ++ separator ++ c) := by
  refine ⟨?_, ?_, ?_⟩
  · intro nm cfg m h
    obtain ⟨_, hm⟩ := construct_inversion none nm cfg m h
    rw [hm]
    rfl
  · intro p nm cfg m h
    obtain ⟨_, hm⟩ := construct_inversion (some p) nm cfg m h
    rw [hm]
    exact ⟨rfl, rfl⟩
  · intro m c
    rfl

/-- C4 at concrete instances: root "m", its child "child", and an internal
component name "node". -/
theorem C4_naming_witness :
    (construct none "m" Json.null = .ok exEmpty ∧ component_prefix exEmpty = "m") ∧
    (construct (some exEmpty) "child" Json.null = .ok exChild ∧
      component_prefix exChild = component_prefix exEmpty ++ separator ++ name exChild ∧
      name exChild = "child") ∧
    get_module_component_name exEmpty "node" =
      component_prefix exEmpty ++ separator ++ "node" :=
  ⟨⟨rfl, C4_naming.1 "m" Json.null exEmpty rfl⟩,
   ⟨rfl, C4_naming.2.1 exEmpty "child" Json.null exChild rfl⟩,
   C4_naming.2.2 exEmpty "node"⟩

/-- C5 as stated is refuted by a name containing the separator: a root
instance named "a/b" and the child "b" of a root named "a" have distinct
ancestry paths, sibling names are distinct at every nesting level (the two
roots "a/b" and "a" differ), yet the two component prefix values are
equal. -/
theorem C5_counterexample :
    ∃ m1 m2 : SegmentModule,
      constructPath ["a/b"] = .ok m1 ∧
      constructPath ["a", "b"] = .ok m2 ∧
      (["a/b"] : List String) ≠ ["a", "b"] ∧
      ("a/b" : String) ≠ "a" ∧
      component_prefix m1 = component_prefix m2 :=
  ⟨{ m_module_name := "a/b"
     m_component_prefix := "a/b"
     m_input_port_ids := []
     m_output_port_ids := []
     m_input_port_type_indices := []
     m_output_port_type_indices := []
     m_input_ports := []
     m_output_ports := []
     m_config := Json.null
     m_initialized := false },
   { m_module_name := "b"
     m_component_prefix := "a/b"
     m_input_port_ids := []
     m_output_port_ids := []
     m_input_port_type_indices := []
     m_output_port_type_indices := []
     m_input_ports := []
     m_output_ports := []
     m_config := Json.null
     m_initialized := false },
   rfl, rfl, by decide, by decide, rfl⟩

/-- C5 (amended): provided additionally that no name contains the separator
character, any two module instances with distinct ancestry paths have
distinct component prefix values, at arbitrary nesting depth — path
distinctness then suffices, so in particular distinct siblings (and
sibling-distinct deeper chains) get distinct prefix values. -/
theorem C5_distinct_paths (p q : List String) (m1 m2 : SegmentModule)
    (h1 : constructPath p = .ok m1) (h2 : constructPath q = .ok m2)
    (hfp : ∀ n ∈ p, '/' ∉ n.data) (hfq : ∀ n ∈ q, '/' ∉ n.data)
    (hpq : p ≠ q) : component_prefix m1 ≠ component_prefix m2 := by
  obtain ⟨hp1, hp2⟩ := constructPath_names p m1 h1
  obtain ⟨hq1, hq2⟩ := constructPath_names q m2 h2
  obtain ⟨ma, hma, hpa⟩ := constructPath_ok p hp1 hp2
  obtain ⟨mb, hmb, hpb⟩ := constructPath_ok q hq1 hq2
  rw [h1] at hma
  injection hma with hea
  rw [h2] at hmb
  injection hmb with heb
  subst hea
  subst heb
  intro heq
  refine hpq (prefixOfPath_inj p q hp1 hq1 hfp hfq ?_)
  rw [← hpa, ← hpb]
  exact heq

/-- C5 (amended) at three levels: the chains "a"/"b"/"c" and "a"/"b"/"d"
yield distinct prefix values. -/
theorem C5_distinct_paths_witness :
    constructPath ["a", "b", "c"] = .ok exABC ∧
    constructPath ["a", "b", "d"] = .ok exABD ∧
    (∀ n ∈ (["a", "b", "c"] : List String), '/' ∉ n.data) ∧
    (∀ n ∈ (["a", "b", "d"] : List String), '/' ∉ n.data) ∧
    (["a", "b", "c"] : List String) ≠ ["a", "b", "d"] ∧
    component_prefix exABC ≠ component_prefix exABD :=
  ⟨rfl, rfl, by decide, by decide, by decide,
    C5_distinct_paths ["a", "b", "c"] ["a", "b", "d"] exABC exABD rfl rfl
      (by decide) (by decide) (by decide)⟩

end srf.modules.SegmentModule


namespace srf.modules.SegmentModule

/-- C9: after any registration sequence of distinct names on a fresh
instance, the bulk accessors (`input_ports` / `input_port_type_ids`,
`output_ports` / `output_port_type_ids`) iterate their entries in
lexicographically sorted key order (the `std::map` order), while
`input_ids` / `output_ids` report exact registration order; whenever the
registration order is not sorted, the bulk-map key sequence therefore
differs from the id-list sequence. -/
theorem C9_bulk_map_sorted (parent : Option SegmentModule) (nm : String) (cfg : Json)
    (m0 : SegmentModule) (hc : construct parent nm cfg = .ok m0)
    (xs ys : List (String × Nat × Nat))
    (hxs : (xs.map Prod.fst).Nodup) (hys : (ys.map Prod.fst).Nodup)
    (mi mo : SegmentModule)
    (hi : registerInputsE m0 xs = .ok mi) (ho : registerOutputsE m0 ys = .ok mo) :
    (List.Sorted (fun a b => strLt a b = true) ((input_ports mi).map Prod.fst) ∧
     List.Sorted (fun a b => strLt a b = true) ((input_port_type_ids mi).map Prod.fst) ∧
     input_ids mi = xs.map Prod.fst ∧
     (¬ List.Sorted (fun a b => strLt a b = true) (xs.map Prod.fst) →
       (input_ports mi).map Prod.fst ≠ input_ids mi)) ∧
    (List.Sorted (fun a b => strLt a b = true) ((output_ports mo).map Prod.fst) ∧
     List.Sorted (fun a b => strLt a b = true) ((output_port_type_ids mo).map Prod.fst) ∧
     output_ids mo = ys.map Prod.fst ∧
     (¬ List.Sorted (fun a b => strLt a b = true) (ys.map Prod.fst) →
       (output_ports mo).map Prod.fst ≠ output_ids mo)) := by
  obtain ⟨hnm, hm0⟩ := construct_inversion parent nm cfg m0 hc
  have hfin : ∀ n ∈ xs.map Prod.fst, mapLookup n m0.m_input_ports = none := by
    intro n _
    rw [hm0]
    rfl
  have hfout : ∀ n ∈ ys.map Prod.fst, mapLookup n m0.m_output_ports = none := by
    intro n _
    rw [hm0]
    rfl
  constructor
  · obtain ⟨mi', hrun, hinreg, _⟩ := registerInputsE_ok xs m0 hxs hfin
    obtain rfl : mi = mi' := by
      injection hi.symm.trans hrun
    have hsort0p : List.Sorted (fun a b => strLt a b = true)
        (( inputRegistry m0).ports.map Prod.fst) := by
      rw [hm0]
      exact List.sorted_nil
    have hsort0t : List.Sorted (fun a b => strLt a b = true)
        (( inputRegistry m0).types.map Prod.fst) := by
      rw [hm0]
      exact List.sorted_nil
    obtain ⟨hsp, hst⟩ := Registry.sorted_keys_regAll xs ( inputRegistry m0) hsort0p hsort0t
    have hports := congrArg Registry.ports hinreg
    have htypes := congrArg Registry.types hinreg
    have hids0 := congrArg Registry.ids hinreg
    rw [Registry.ids_regAll, hm0] at hids0
    have hids : input_ids mi = xs.map Prod.fst := hids0
    have hkeyss : List.Sorted (fun a b => strLt a b = true)
        ((input_ports mi).map Prod.fst) := by
      rw [(show input_ports mi = ( inputRegistry mi).ports from rfl), hports]
      exact hsp
    have htypess : List.Sorted (fun a b => strLt a b = true)
        ((input_port_type_ids mi).map Prod.fst) := by
      rw [(show input_port_type_ids mi = ( inputRegistry mi).types from rfl), htypes]
      exact hst
    refine ⟨hkeyss, htypess, hids, ?_⟩
    intro hns heq
    refine hns ?_
    rw [← hids, ← heq]
    exact hkeyss
  · obtain ⟨mo', hrun, houtreg, _⟩ := registerOutputsE_ok ys m0 hys hfout
    obtain rfl : mo = mo' := by
      injection ho.symm.trans hrun
    have hsort0p : List.Sorted (fun a b => strLt a b = true)
        (( outputRegistry m0).ports.map Prod.fst) := by
      rw [hm0]
      exact List.sorted_nil
    have hsort0t : List.Sorted (fun a b => strLt a b = true)
        (( outputRegistry m0).types.map Prod.fst) := by
      rw [hm0]
      exact List.sorted_nil
    obtain ⟨hsp, hst⟩ := Registry.sorted_keys_regAll ys ( outputRegistry m0) hsort0p hsort0t
    have hports := congrArg Registry.ports houtreg
    have htypes := congrArg Registry.types houtreg
    have hids0 := congrArg Registry.ids houtreg
    rw [Registry.ids_regAll, hm0] at hids0
    have hids : output_ids mo = ys.map Prod.fst := hids0
    have hkeyss : List.Sorted (fun a b => strLt a b = true)
        ((output_ports mo).map Prod.fst) := by
      rw [(show output_ports mo = ( outputRegistry mo).ports from rfl), hports]
      exact hsp
    have htypess : List.Sorted (fun a b => strLt a b = true)
        ((output_port_type_ids mo).map Prod.fst) := by
      rw [(show output_port_type_ids mo = ( outputRegistry mo).types from rfl), htypes]
      exact hst
    refine ⟨hkeyss, htypess, hids, ?_⟩
    intro hns heq
    refine hns ?_
    rw [← hids, ← heq]
    exact hkeyss

end srf.modules.SegmentModule

namespace srf.modules.SegmentModule

/-- C9 at a concrete input: registering "b" before "a" yields the sorted
key sequence ["a", "b"] in the bulk maps but ["b", "a"] in the id list, and
the two differ. -/
theorem C9_bulk_map_sorted_witness :
    construct none "m" Json.null = .ok exEmpty ∧
    (([("b", 0, 0), ("a", 1, 1)].map Prod.fst : List String).Nodup ∧
      (([] : List (String × Nat × Nat)).map Prod.fst).Nodup) ∧
    registerInputsE exEmpty [("b", 0, 0), ("a", 1, 1)] = .ok exBA ∧
    registerOutputsE exEmpty [] = .ok exEmpty ∧
    ¬ List.Sorted (fun a b => strLt a b = true)
      ([("b", 0, 0), ("a", 1, 1)].map Prod.fst : List String) ∧
    (List.Sorted (fun a b => strLt a b = true) ((input_ports exBA).map Prod.fst) ∧
      input_ids exBA = ["b", "a"] ∧
      (input_ports exBA).map Prod.fst ≠ input_ids exBA) := by
  have hmain := C9_bulk_map_sorted none "m" Json.null exEmpty rfl
    [("b", 0, 0), ("a", 1, 1)] [] (by decide) (by decide) exBA exEmpty rfl rfl
  exact ⟨rfl, ⟨by decide, by decide⟩, rfl, rfl, by decide,
    hmain.1.1, hmain.1.2.2.1, hmain.1.2.2.2 (by decide)⟩

/-- C10: registry consistency — the keys of the port-handle map, the keys
of the type-identity map and the entries of the id vector of each direction
always agree as (duplicate-free) name sets.  Construction establishes all
six structures empty, every registration step (successful or failed)
preserves the invariant, each successful registration extends all three
structures of its direction with the same name, and the build entrypoint
preserves the invariant.  (Accessors are pure projections in the embedding
and change nothing.) -/
theorem C10_registry_consistency :
    (∀ parent nm cfg m, construct parent nm cfg = .ok m →
      ModuleInv m ∧ inputRegistry m = ⟨[], [], []⟩ ∧ outputRegistry m = ⟨[], [], []⟩) ∧
    (∀ m op, ModuleInv m → ModuleInv (applyRegOp m op)) ∧
    (∀ m n o t m', ModuleInv m → register_input_port m n o t = .ok m' →
      input_ids m' = input_ids m ++ [n] ∧
      ((input_ports m').map Prod.fst).Perm (n :: (input_ports m).map Prod.fst) ∧
      ((input_port_type_ids m').map Prod.fst).Perm
        (n :: (input_port_type_ids m).map Prod.fst)) ∧
    (∀ m n o t m', ModuleInv m → register_output_port m n o t = .ok m' →
      output_ids m' = output_ids m ++ [n] ∧
      ((output_ports m').map Prod.fst).Perm (n :: (output_ports m).map Prod.fst) ∧
      ((output_port_type_ids m').map Prod.fst).Perm
        (n :: (output_port_type_ids m).map Prod.fst)) ∧
    (∀ m ops r m', ModuleInv m → callOperator m ops = (r, m') → ModuleInv m') := by
  refine ⟨?_, ?_, ?_, ?_, ?_⟩
  · intro parent nm cfg m h
    obtain ⟨_, hm⟩ := construct_inversion parent nm cfg m h
    rw [hm]
    exact ⟨⟨⟨List.nodup_nil, List.Perm.refl _, List.Perm.refl _⟩,
      ⟨List.nodup_nil, List.Perm.refl _, List.Perm.refl _⟩⟩, rfl, rfl⟩
  · intro m op h
    exact applyRegOp_inv m op h
  · intro m n o t m' hinv h
    obtain ⟨hn, hm'⟩ := register_input_port_inversion m n o t m' h
    obtain ⟨⟨hnd, hperm, htperm⟩, _⟩ := hinv
    have hxp : n ∉ m.m_input_ports.map Prod.fst := (mapLookup_eq_none_iff n _).mp hn
    have hxt : n ∉ m.m_input_port_type_indices.map Prod.fst := by
      intro hmem
      exact hxp (hperm.mem_iff.mpr (htperm.mem_iff.mp hmem))
    subst hm'
    exact ⟨rfl, keys_mapInsert_perm n o m.m_input_ports hxp,
      keys_mapInsert_perm n t m.m_input_port_type_indices hxt⟩
  · intro m n o t m' hinv h
    obtain ⟨hn, hm'⟩ := register_output_port_inversion m n o t m' h
    obtain ⟨_, ⟨hnd, hperm, htperm⟩⟩ := hinv
    have hxp : n ∉ m.m_output_ports.map Prod.fst := (mapLookup_eq_none_iff n _).mp hn
    have hxt : n ∉ m.m_output_port_type_indices.map Prod.fst := by
      intro hmem
      exact hxp (hperm.mem_iff.mpr (htperm.mem_iff.mp hmem))
    subst hm'
    exact ⟨rfl, keys_mapInsert_perm n o m.m_output_ports hxp,
      keys_mapInsert_perm n t m.m_output_port_type_indices hxt⟩
  · intro m ops r m' hinv h
    cases hini : m.m_initialized
    · rw [(callOperator_cases m ops).1 hini, Prod.mk.injEq] at h
      obtain ⟨_, h2⟩ := h
      rw [← h2]
      exact runInitialize_inv ops m hinv
    · rw [(callOperator_cases m ops).2 hini, Prod.mk.injEq] at h
      obtain ⟨_, h2⟩ := h
      rw [← h2]
      exact hinv

/-- C10 at concrete inputs: the invariant holds at construction, survives a
registration on `exDup` and an entrypoint call on `exEmpty`. -/
theorem C10_registry_consistency_witness :
    construct none "m" Json.null = .ok exEmpty ∧
    ModuleInv exEmpty ∧
    ModuleInv exDup ∧
    ModuleInv (applyRegOp exDup (.input "q" 1 2)) ∧
    (callOperator exEmpty [] = (none, { exEmpty with m_initialized := true }) ∧
      ModuleInv { exEmpty with m_initialized := true }) ∧
    (register_input_port exDup "q" 1 2 =
        .ok { exDup with
              m_input_port_ids := ["p", "q"]
              m_input_ports := [("p", 3), ("q", 1)]
              m_input_port_type_indices := [("p", 7), ("q", 2)] } ∧
      input_ids { exDup with
              m_input_port_ids := ["p", "q"]
              m_input_ports := [("p", 3), ("q", 1)]
              m_input_port_type_indices := [("p", 7), ("q", 2)] } =
        input_ids exDup ++ ["q"]) := by
  have hdup : ModuleInv exDup := by
    unfold ModuleInv Registry.Inv
    refine ⟨⟨by decide, by decide, by decide⟩, by decide, by decide, by decide⟩
  refine ⟨rfl, (C10_registry_consistency.1 none "m" Json.null exEmpty rfl).1, hdup,
    C10_registry_consistency.2.1 exDup (.input "q" 1 2) hdup,
    ⟨rfl, C10_registry_consistency.2.2.2.2 exEmpty [] none _
      (C10_registry_consistency.1 none "m" Json.null exEmpty rfl).1 rfl⟩,
    ⟨rfl, (C10_registry_consistency.2.2.1 exDup "q" 1 2 _ hdup rfl).1⟩⟩

end srf.modules.SegmentModule
